import Mathlib

/-!
Shallow embedding of the WealthDash personal-finance dashboard
(accounts ledger, currency conversion, aggregation, import pipeline)
together with proofs settling the frozen specification claims.

Numbers are modelled by the rationals `ℚ`: every numeric value the
settled claims mention is produced by exact decimal arithmetic in the
source (sums, products, one division by a looked-up rate), so `ℚ`
reflects the algebra of the code.  JavaScript `NaN` appears in the
model only where a claim depends on it (rate-table entries, via
`RateVal.nan`); numeric spreadsheet cells and account balances are
finite numbers.
-/

namespace WealthDash

/-! ## JavaScript value model

`Json` models the duck-typed JavaScript values flowing through
the import pipeline and the persisted snapshot: possible results of
`JSON.parse` and the possible spreadsheet cell values.  `undefined`
(for example a missing object field or an out-of-range array index) is
modelled by `Option.none` at each use site.
-/

inductive Json where
  | null : Json
  | bool : Bool → Json
  | num : ℚ → Json
  | str : String → Json
  | arr : List Json → Json
  | obj : List (String × Json) → Json

/-- JavaScript truthiness of a value: `null`, `false`, `0` and the
empty string are falsy; arrays and objects are always truthy. -/
def Json.truthy : Json → Bool
  | .null => false
  | .bool b => b
  | .num q => q != 0
  | .str s => s != ""
  | .arr _ => true
  | .obj _ => true

/-- Whether the value is JavaScript `null`.  Property access on `null`
throws a `TypeError`, which several call sites catch. -/
def Json.isNull : Json → Bool
  | .null => true
  | _ => false

mutual

/-- JavaScript `String(v)` conversion.  Exact for `null`, booleans and
strings, which are the only cases a settled claim evaluates; the
decimal display formatting of numbers and the corner cases of array
stringification (`null` elements printing as the empty string) are
simplified, and no settled claim depends on them. -/
def toJsString : Json → String
  | .null => "null"
  | .bool true => "true"
  | .bool false => "false"
  | .num q => toString q
  | .str s => s
  | .arr l => String.intercalate "," (toJsStringList l)
  | .obj _ => "[object Object]"

def toJsStringList : List Json → List String
  | [] => []
  | j :: rest => toJsString j :: toJsStringList rest

end

/-- Field access `v.key` on a JavaScript value, for values on which
access does not throw: objects yield the stored field, every non-null
non-object yields `undefined` (`none`).  Access on `null` throws and is
handled explicitly by callers via `Json.isNull`. -/
def Json.getField : Json → String → Option Json
  | .obj fields, key =>
    match fields.find? (fun p => p.1 == key) with
    | some p => some p.2
    | none => none
  | _, _ => none

/-! ## The `parseFloat` model

`parseFloatCore` parses the longest decimal-literal prefix of a
character list: an optional sign, digits, an optional fractional part
and an optional exponent part, returning `none` exactly when
JavaScript `parseFloat` returns `NaN`.  (`Infinity` literals are not
modelled; no input a settled claim evaluates contains them.) -/

def digitsVal (l : List Char) : ℕ :=
  l.foldl (fun n c => 10 * n + (c.toNat - 48)) 0

def parseFloatCore (l : List Char) : Option ℚ :=
  let signAndRest : ℚ × List Char :=
    match l with
    | '-' :: r => (-1, r)
    | '+' :: r => (1, r)
    | _ => (1, l)
  let sgn := signAndRest.1
  let l1 := signAndRest.2
  let ip := l1.takeWhile Char.isDigit
  let l2 := l1.dropWhile Char.isDigit
  let fracAndRest : List Char × List Char :=
    match l2 with
    | '.' :: r => (r.takeWhile Char.isDigit, r.dropWhile Char.isDigit)
    | _ => ([], l2)
  let fp := fracAndRest.1
  let l3 := fracAndRest.2
  if ip.isEmpty && fp.isEmpty then none
  else
    let mant : ℚ := (digitsVal ip : ℚ) + (digitsVal fp : ℚ) / ((10 : ℚ) ^ fp.length)
    let ex : ℤ :=
      match l3 with
      | 'e' :: r | 'E' :: r =>
        let expSignAndRest : ℤ × List Char :=
          match r with
          | '-' :: r2 => (-1, r2)
          | '+' :: r2 => (1, r2)
          | _ => (1, r)
        let ed := expSignAndRest.2.takeWhile Char.isDigit
        if ed.isEmpty then 0 else expSignAndRest.1 * (digitsVal ed : ℤ)
      | _ => 0
    some (sgn * mant * (10 : ℚ) ^ ex)

/-- JavaScript `parseFloat` on a string: skip leading whitespace, then
parse the longest decimal-literal prefix; `none` models `NaN`. -/
def parseFloatQ (s : String) : Option ℚ :=
  parseFloatCore (s.data.dropWhile Char.isWhitespace)

/-- JavaScript `String.prototype.trim`: strip leading and trailing
whitespace. -/
def jsTrim (s : String) : String :=
  ⟨((s.data.dropWhile Char.isWhitespace).reverse.dropWhile Char.isWhitespace).reverse⟩

/-- JavaScript `toLowerCase` (ASCII case mapping; the CJK characters
appearing in this code base are unaffected both in JS and here). -/
def jsToLower (s : String) : String :=
  ⟨s.data.map Char.toLower⟩

/-- JavaScript `toUpperCase` (ASCII case mapping). -/
def jsToUpper (s : String) : String :=
  ⟨s.data.map Char.toUpper⟩

/-! ## Domain enums and records (`types.ts`)

The committed `types.ts` in the repository lists only `CNY` and `HKD`,
but the application code references the members `USD`, `JPY`, `EUR`,
`GBP`, `AUD`, `CAD` and `SGD` (`DEFAULT_RATES`, `toggleBaseCurrency`,
`guessCurrency`, `getSymbol`) and does not compile against the
two-member revision.  Modelled from the spec: the effective `Currency`
enum has the nine members the spec records and the code uses. -/

inductive Currency where
  | HKD | CNY | USD | JPY | EUR | GBP | AUD | CAD | SGD
deriving DecidableEq

/-- The string value of each `Currency` enum member. -/
def Currency.code : Currency → String
  | .HKD => "HKD"
  | .CNY => "CNY"
  | .USD => "USD"
  | .JPY => "JPY"
  | .EUR => "EUR"
  | .GBP => "GBP"
  | .AUD => "AUD"
  | .CAD => "CAD"
  | .SGD => "SGD"

/-- `Object.values(Currency).includes(s)`: decode a string to the enum
member carrying it, if any. -/
def Currency.ofCode (s : String) : Option Currency :=
  if s = "HKD" then some .HKD
  else if s = "CNY" then some .CNY
  else if s = "USD" then some .USD
  else if s = "JPY" then some .JPY
  else if s = "EUR" then some .EUR
  else if s = "GBP" then some .GBP
  else if s = "AUD" then some .AUD
  else if s = "CAD" then some .CAD
  else if s = "SGD" then some .SGD
  else none

inductive AccountType where
  | BANK | INVESTMENT | WALLET | PERSONAL
deriving DecidableEq

/-- The string value of each `AccountType` enum member. -/
def AccountType.code : AccountType → String
  | .BANK => "Bank"
  | .INVESTMENT => "Investment"
  | .WALLET => "Digital Wallet"
  | .PERSONAL => "Personal/Other"

/-- `Object.values(AccountType).includes(s)`. -/
def AccountType.ofCode (s : String) : Option AccountType :=
  if s = "Bank" then some .BANK
  else if s = "Investment" then some .INVESTMENT
  else if s = "Digital Wallet" then some .WALLET
  else if s = "Personal/Other" then some .PERSONAL
  else none

structure Account where
  id : String
  name : String
  type : AccountType
  currency : Currency
  balance : ℚ
deriving DecidableEq

/-- The pre-populated accounts of `types.ts`. -/
def INITIAL_ACCOUNTS : List Account :=
  [ ⟨"acc_1", "HSBC (汇丰)", .BANK, .HKD, 0⟩,
    ⟨"acc_2", "BOCHK (中银香港)", .BANK, .HKD, 0⟩,
    ⟨"acc_3", "Mox Bank", .BANK, .HKD, 0⟩,
    ⟨"acc_4", "ZA Bank (众安)", .BANK, .HKD, 0⟩,
    ⟨"acc_5", "Longbridge (长桥证券)", .INVESTMENT, .HKD, 0⟩,
    ⟨"acc_6", "Bank of China (中国银行)", .BANK, .CNY, 0⟩ ]

/-- Modelled from the spec: the expense/income taxonomy of the
`ExpenseCategory` enum (its defining module is absent from the
committed sources; the member list is read off `ExpenseTracker`). -/
inductive ExpenseCategory where
  | DINING | GROCERIES | TRANSPORT | SHOPPING | HOUSING | UTILITIES
  | BILLS | ENTERTAINMENT | HEALTH | TRANSFER | INCOME | INVESTMENT | OTHER
deriving DecidableEq

/-- Modelled from the spec: the `Transaction` record (its defining
module is absent from the committed sources; the field list follows
the spec data model and every use site in the code). -/
structure Transaction where
  id : String
  date : String
  description : String
  category : ExpenseCategory
  amount : ℚ
deriving DecidableEq

/-! ## Exchange-rate table -/

/-- A value stored in the `Record<string, number>` exchange-rate
table: a finite number or `NaN`. -/
inductive RateVal where
  | nan : RateVal
  | num : ℚ → RateVal
deriving DecidableEq

/-- The exchange-rate table: currency code → units of that currency
per 1 HKD stored as a JavaScript record; an absent key models a
missing rate. -/
def RateTable := List (String × RateVal)

/-- Record lookup `rates[key]`; `none` is `undefined`. -/
def lookupRate : RateTable → String → Option RateVal
  | [], _ => none
  | (k, v) :: rest, key => if k = key then some v else lookupRate rest key

/-- Record update `rates[key] = v` (replace the binding if the key is
present, append it otherwise). -/
def setRate : RateTable → String → RateVal → RateTable
  | [], key, v => [(key, v)]
  | (k0, v0) :: rest, key, v =>
    if k0 = key then (k0, v) :: rest else (k0, v0) :: setRate rest key v

/-- Object spread `{ ...prev, ...resp }`: every binding of the
response overrides or extends the previous table, entry by entry.
This is the state update of `refreshRates`. -/
def mergeRates (prev : RateTable) (resp : List (String × RateVal)) : RateTable :=
  resp.foldl (fun t p => setRate t p.1 p.2) prev

/-- `DEFAULT_RATES`: the built-in table of rates relative to HKD. -/
def DEFAULT_RATES : RateTable :=
  [ (Currency.code .HKD, .num 1),
    (Currency.code .CNY, .num 1.08),
    (Currency.code .USD, .num 7.82),
    (Currency.code .JPY, .num 0.052),
    (Currency.code .EUR, .num 8.5),
    (Currency.code .GBP, .num 9.9),
    (Currency.code .AUD, .num 5.2),
    (Currency.code .CAD, .num 5.8),
    (Currency.code .SGD, .num 5.8) ]

/-- The `useState` initializer of `exchangeRates`: the persisted
snapshot field when it is a stored table, `DEFAULT_RATES` otherwise
(`parsed.exchangeRates || DEFAULT_RATES`).  The input is the stored
`exchangeRates` field of the snapshot; JavaScript truthiness of
non-object stored values is outside the model. -/
def loadExchangeRates (savedField : Option RateTable) : RateTable :=
  savedField.getD DEFAULT_RATES

/-- The expression `v || fallback` for a rate lookup `v`: a present
non-zero finite number passes through, while a missing key, `NaN` and
`0` are falsy and give the fallback. -/
def jsRateOr (v : Option RateVal) (fallback : ℚ) : ℚ :=
  match v with
  | some (.num q) => if q = 0 then fallback else q
  | _ => fallback

/-! ## Currency conversion engine

The conversion performed identically by the `totals` `useMemo` of the
application root and by `AssetChart.totalData`:
`rateToHKD = rates[currency] || (currency === HKD ? 1 : 0)`,
`effectiveRate = rateToHKD === 0 ? 1 : rateToHKD`, multiply to reach
HKD, then when the display base is not HKD divide by
`rates[base] || 1`. -/

def rateToHKD (rates : RateTable) (c : Currency) : ℚ :=
  jsRateOr (lookupRate rates c.code) (if c = .HKD then 1 else 0)

def effectiveRate (rates : RateTable) (c : Currency) : ℚ :=
  let r := rateToHKD rates c
  if r = 0 then 1 else r

/-- The display conversion factor: 1 for the anchor base, otherwise
`1 / (rates[base] || 1)`. -/
def displayFactor (rates : RateTable) (base : Currency) : ℚ :=
  if base = .HKD then 1 else 1 / jsRateOr (lookupRate rates base.code) 1

/-- `toBase(amount, fromCurrency, rateTable, baseCurrency)`: the
two-hop conversion source → HKD → base as implemented by the `totals`
`useMemo` and `AssetChart.totalData`. -/
def toBase (x : ℚ) (c : Currency) (rates : RateTable) (base : Currency) : ℚ :=
  let valInHKD := x * effectiveRate rates c
  if base = .HKD then valInHKD
  else valInHKD / jsRateOr (lookupRate rates base.code) 1

/-! ## Aggregation engine (the `totals` `useMemo`)

`bucketStep` is one iteration of the `accounts.forEach` loop: classify
the account and accumulate the raw HKD-denominated buckets together
with the running `totalHKD`.  In the model every balance is a number,
so the defensive `typeof acc.balance === 'number'` guard of the source
always takes its first branch. -/

structure Buckets where
  hkdCash : ℚ
  foreignCash : ℚ
  invest : ℚ
  liability : ℚ
  totalHKD : ℚ
deriving DecidableEq

def bucketStep (rates : RateTable) (b : Buckets) (acc : Account) : Buckets :=
  let bal := acc.balance
  let balInHKD := bal * effectiveRate rates acc.currency
  let b1 :=
    if acc.type = .INVESTMENT then
      if 0 < bal then { b with invest := b.invest + balInHKD } else b
    else if bal < 0 then
      { b with liability := b.liability + |balInHKD| }
    else if acc.currency = .HKD then
      { b with hkdCash := b.hkdCash + bal }
    else
      { b with foreignCash := b.foreignCash + balInHKD }
  { b1 with totalHKD := b1.totalHKD + balInHKD }

def rawBuckets (accounts : List Account) (rates : RateTable) : Buckets :=
  accounts.foldl (bucketStep rates) ⟨0, 0, 0, 0, 0⟩

/-- The currency symbol chosen for the display base. -/
def currencySymbol (base : Currency) : String :=
  if base = .HKD then "HK$"
  else if base = .CNY then "CN¥"
  else if base = .USD then "US$"
  else "$"

structure Totals where
  netWorth : ℚ
  hkdCash : ℚ
  foreignCash : ℚ
  investments : ℚ
  liabilities : ℚ
  symbol : String
deriving DecidableEq

/-- `computeTotals(accounts, rateTable, baseCurrency)`: the record the
`totals` `useMemo` returns — raw HKD buckets scaled by the display
factor, and `netWorth` computed from the four buckets. -/
def computeTotals (accounts : List Account) (rates : RateTable) (base : Currency) : Totals :=
  let b := rawBuckets accounts rates
  let df := displayFactor rates base
  { netWorth := (b.hkdCash + b.foreignCash + b.invest - b.liability) * df
    hkdCash := b.hkdCash * df
    foreignCash := b.foreignCash * df
    investments := b.invest * df
    liabilities := b.liability * df
    symbol := currencySymbol base }

/-! ## `cleanAmount` (ImportWizard and ExcelGenerator, identical copies) -/

/-- A character the cleaning regex `[^0-9.-]` keeps: digits, the
decimal point, and the minus sign wherever it occurs. -/
def isNumChar (c : Char) : Bool :=
  c.isDigit || c == '.' || c == '-'

/-- `cleanAmount(val)`: `null`/`undefined` → 0, numbers pass through,
otherwise stringify, trim, return 0 for `"-"` and `""`, strip every
character the regex rejects, `parseFloat` the remainder and return 0
for `NaN`.  (`undefined` inputs are passed as `Json.null`; both take
the first branch.) -/
def cleanAmount : Json → ℚ
  | .null => 0
  | .num q => q
  | v =>
    let str := jsTrim (toJsString v)
    if str = "-" || str = "" then 0
    else
      let cleaned : String := ⟨str.data.filter isNumChar⟩
      (parseFloatQ cleaned).getD 0

/-! ## Ledger merge operations (`handleImportSmart`) -/

/-- A draft produced by the import pipeline: `Partial<Account>`
(`icon` omitted; no settled claim mentions it). -/
structure AccountDraft where
  name : Option String
  balance : Option ℚ
  currency : Option Currency
  type : Option AccountType
deriving DecidableEq

/-- `newAccount.balance || 0`: an absent balance becomes 0 (a present
0 is falsy and also becomes 0, the same value). -/
def importBalance (d : AccountDraft) : ℚ :=
  (d.balance).getD 0

/-- The new account pushed for an unmatched draft with (truthy) name
`n`: a freshly minted id and the defaulted enum fields. -/
def draftAccount (freshId : String) (d : AccountDraft) (n : String) : Account :=
  ⟨freshId, n, (d.type).getD .BANK, (d.currency).getD .HKD, importBalance d⟩

/-- `findIndex` on a case-insensitive name match followed by the
in-place overwrite of the matched element with
`{ ...existing, balance }`: `some` when a match was found (the first
matching account, with only its balance replaced), `none` otherwise.
`low` is the lower-cased draft name. -/
def upsertByName (low : String) (bal : ℚ) : List Account → Option (List Account)
  | [] => none
  | a :: rest =>
    if jsToLower a.name = low then some ({ a with balance := bal } :: rest)
    else
      match upsertByName low bal rest with
      | some rest2 => some (a :: rest2)
      | none => none

/-- The `data.accounts.forEach` loop of `handleImportSmart`: drafts
with a falsy (absent or empty) name are skipped; each remaining draft
updates the balance of the first case-insensitively matching account
or is appended with a freshly minted id.  `fresh` supplies the ids
(`ai-${Date.now()}-${random}` in the source) indexed by the number of
accounts appended so far. -/
def importAccountsGo (fresh : ℕ → String) : ℕ → List Account → List AccountDraft → List Account
  | _, accs, [] => accs
  | k, accs, d :: ds =>
    match d.name with
    | none => importAccountsGo fresh k accs ds
    | some n =>
      if n = "" then importAccountsGo fresh k accs ds
      else
        match upsertByName (jsToLower n) (importBalance d) accs with
        | some accs2 => importAccountsGo fresh k accs2 ds
        | none => importAccountsGo fresh (k + 1) (accs ++ [draftAccount (fresh k) d n]) ds

/-- The accounts half of `handleImportSmart`. -/
def handleImportSmartAccounts (fresh : ℕ → String) (drafts : List AccountDraft)
    (existing : List Account) : List Account :=
  importAccountsGo fresh 0 existing drafts

/-- The transactions half of `handleImportSmart`:
`[...data.transactions, ...nextTransactions]` when the draft list is
non-empty, the previous list otherwise. -/
def handleImportSmartTransactions (drafts existing : List Transaction) : List Transaction :=
  if drafts.isEmpty then existing else drafts ++ existing

/-! ## `handleAddAccount` (quick-add form) -/

/-- `handleAddAccount`: a falsy (empty) name or balance input returns
without touching the list; otherwise a new account with the minted id
(`Date.now().toString()` in the source, passed as `newId`) and balance
`parseFloat(balance) || 0` is appended. -/
def handleAddAccount (newId name balStr : String) (cur : Currency) (typ : AccountType)
    (accounts : List Account) : List Account :=
  if name = "" || balStr = "" then accounts
  else accounts ++ [⟨newId, name, typ, cur, (parseFloatQ balStr).getD 0⟩]

/-! ## Snapshot restore of the account list (the `accounts` `useState`
initializer) -/

/-- The coerced `type` field: a stored string that is a member of
`AccountType` passes through, anything else becomes `BANK`. -/
def decodeTypeField (j : Option Json) : AccountType :=
  match j with
  | some (.str s) => (AccountType.ofCode s).getD .BANK
  | _ => .BANK

/-- The coerced `currency` field: a member string passes through,
anything else becomes `HKD`. -/
def decodeCurrencyField (j : Option Json) : Currency :=
  match j with
  | some (.str s) => (Currency.ofCode s).getD .HKD
  | _ => .HKD

/-- The coerced `balance` field:
`typeof balance === 'number' ? balance : (parseFloat(balance) || 0)`.
An absent field stringifies to `"undefined"`, which parses to `NaN`
and defaults to 0. -/
def jsBalance (j : Option Json) : ℚ :=
  match j with
  | some (.num q) => q
  | some v => (parseFloatQ (toJsString v)).getD 0
  | none => 0

/-- One element of the restore `map`: each field defensively coerced.
`nowId` is the stringified `Date.now()` minted for a falsy stored id. -/
def coerceAccountJson (nowId : String) (a : Json) : Account :=
  { id :=
      match a.getField "id" with
      | some v => if v.truthy then toJsString v else nowId
      | none => nowId
    name :=
      match a.getField "name" with
      | some v => if v.truthy then toJsString v else "Unknown Asset"
      | none => "Unknown Asset"
    type := decodeTypeField (a.getField "type")
    currency := decodeCurrencyField (a.getField "currency")
    balance := jsBalance (a.getField "balance") }

/-- The `map` over the stored array: property access on a `null`
element throws a `TypeError`, modelled by `none`; the surrounding
`try` turns that into the default list. -/
def coerceElems (nowId : String) : List Json → Option (List Account)
  | [] => some []
  | a :: rest =>
    if a.isNull then none
    else
      match coerceElems nowId rest with
      | some l => some (coerceAccountJson nowId a :: l)
      | none => none

/-- The `accounts` `useState` initializer: nothing stored (or an
unparseable stored string, which behaves identically) restores
`INITIAL_ACCOUNTS`; a stored `null` document throws on field access
and is caught; a non-array `accounts` field restores
`INITIAL_ACCOUNTS`; an array is coerced element by element unless a
`null` element throws, in which case the catch again restores
`INITIAL_ACCOUNTS`. -/
def loadAccounts (nowId : String) (saved : Option Json) : List Account :=
  match saved with
  | none => INITIAL_ACCOUNTS
  | some parsed =>
    if parsed.isNull then INITIAL_ACCOUNTS
    else
      match parsed.getField "accounts" with
      | some (.arr l) => (coerceElems nowId l).getD INITIAL_ACCOUNTS
      | _ => INITIAL_ACCOUNTS

/-! ## Spreadsheet import heuristics

The keyword regexes of the import components are alternations of
literal strings, so a test is a substring check against the upper- or
lower-cased cell text. -/

/-- Whether `pat` occurs as a contiguous substring of `l`. -/
def occursWithin (pat : List Char) : List Char → Bool
  | [] => pat.isEmpty
  | l@(_ :: rest) => pat.isPrefixOf l || occursWithin pat rest

/-- `s.includes(pat)`. -/
def strIncludes (s pat : String) : Bool :=
  occursWithin pat.data s.data

/-- A regex alternation of literal strings tested against `s`. -/
def containsAny (s : String) (pats : List String) : Bool :=
  pats.any (fun p => strIncludes s p)

/-- `guessType` of `ImportWizard`. -/
def guessType (name : String) : AccountType :=
  let n := jsToUpper name
  if containsAny n ["INVEST", "STOCK", "FUND", "SECUR", "TRADE", "LONGBRIDGE", "FUTU",
      "TIGER", "IBKR", "证券", "股票", "基金", "投资", "长桥", "富途", "老虎"] then .INVESTMENT
  else if containsAny n ["WALLET", "PAY", "ALIPAY", "WECHAT", "OCTOPUS", "PAYME", "MOX",
      "ZA", "LIVI", "钱包", "支付", "微信", "支付宝", "八达通"] then .WALLET
  else if containsAny n ["PERSONAL", "CASH", "LOAN", "OTHER", "LEND", "BORROW",
      "私房", "借出", "现金", "其他", "森宇", "波仔"] then .PERSONAL
  else .BANK

/-- `guessCurrency` of `ImportWizard`. -/
def guessCurrency (context : String) : Currency :=
  let s := jsToUpper context
  if containsAny s ["JPY", "YEN", "円", "日元", "JP¥"] then .JPY
  else if containsAny s ["USD", "US DOLLAR", "美元", "US$", "美金"] then .USD
  else if containsAny s ["CNY", "RMB", "CNH", "人民币", "¥"] then .CNY
  else if containsAny s ["EUR", "EURO", "欧元", "€"] then .EUR
  else if containsAny s ["GBP", "POUND", "英镑", "£"] then .GBP
  else if containsAny s ["AUD", "AU DOLLAR", "澳元"] then .AUD
  else if containsAny s ["CAD", "CA DOLLAR", "加元"] then .CAD
  else if containsAny s ["SGD", "SG DOLLAR", "新币", "坡币"] then .SGD
  else .HKD

/-- Reading `row[i]` where `i` may be `-1` (modelled as `none`) or out
of range: both give `undefined`, passed on as `Json.null` (the two are
interchangeable for every consumer in this pipeline). -/
def cellAt (row : List Json) : Option ℕ → Json
  | some i => row.getD i .null
  | none => .null

/-- The header-row detector of `handleExcelImport`:
`/NAME|ACCOUNT|BALANCE|AMOUNT|账户|余额/` over the upper-cased cells. -/
def headerRowIdx (rawData : List (List Json)) : Option ℕ :=
  rawData.findIdx? (fun row =>
    row.any (fun c => containsAny (jsToUpper (toJsString c))
      ["NAME", "ACCOUNT", "BALANCE", "AMOUNT", "账户", "余额"]))

/-- `findIdx(keywords)`: the first lower-cased header cell containing
one of the keywords. -/
def kwIdx (header : List Json) (kws : List String) : Option ℕ :=
  (header.map (fun c => jsToLower (toJsString c))).findIdx?
    (fun h => kws.any (fun k => strIncludes h k))

/-- One row of the `ImportWizard` bulk-asset mapper (lines 94–106): a
falsy name cell or a cleaned balance ≤ 0 yields `null` (filtered out),
otherwise an account with id `gen-${idx}-${Date.now()}` and guessed
type and currency. -/
def parseWizardRow (now : String) (nameIdx balanceIdx : ℕ) (currencyIdx : Option ℕ)
    (idx : ℕ) (row : List Json) : Option Account :=
  let nameCell := row.getD nameIdx .null
  if ! nameCell.truthy then none
  else
    let name := jsTrim (toJsString nameCell)
    let bal := cleanAmount (row.getD balanceIdx .null)
    if name = "" || bal ≤ 0 then none
    else
      let curStr := match currencyIdx with
        | some ci => toJsString (row.getD ci .null)
        | none => ""
      let context := jsToUpper (name ++ " " ++ curStr)
      some ⟨"gen-" ++ toString idx ++ "-" ++ now, name, guessType name,
        guessCurrency context, bal⟩

/-- `handleExcelImport` of `ImportWizard`: reject a sheet of fewer
than two rows, locate the header row and the name/balance/currency
columns by keyword, map the remaining rows through `parseWizardRow`,
and reject an empty result.  Thrown `Error`s are the `Except.error`
messages. -/
def handleExcelImport (now : String) (rawData : List (List Json)) :
    Except String (List Account) :=
  if rawData.length < 2 then .error "Excel file seems empty."
  else
    let startRow := (headerRowIdx rawData).getD 0
    let header := rawData.getD startRow []
    let nameIdx := (kwIdx header ["name", "account", "item", "账户", "名称"]).getD 0
    let balanceIdx := (kwIdx header ["balance", "amount", "value", "余额"]).getD 1
    let currencyIdx := kwIdx header ["currency", "curr", "type", "币种"]
    let rows := (rawData.drop (startRow + 1)).enum
    let parsed := rows.filterMap (fun p => parseWizardRow now nameIdx balanceIdx currencyIdx p.1 p.2)
    if parsed.isEmpty then .error "No valid assets found in Excel."
    else .ok parsed

/-- `str.replace(/CNY|RMB|人民币|¥/, '')`: remove the first match of
the alternation (no global flag), scanning positions left to right and
alternatives in order. -/
def replaceFirstAny (pats : List String) : List Char → List Char
  | [] => []
  | l@(c :: rest) =>
    match pats.find? (fun p => p.data.isPrefixOf l) with
    | some p => l.drop p.length
    | none => c :: replaceFirstAny pats rest

/-- `guessType` of `ExcelGenerator` (the keyword set omits `IBKR`). -/
def guessTypeGen (name : String) : AccountType :=
  let n := jsToUpper name
  if containsAny n ["INVEST", "STOCK", "FUND", "SECUR", "TRADE", "LONGBRIDGE", "FUTU",
      "TIGER", "证券", "股票", "基金", "投资", "长桥", "富途", "老虎"] then .INVESTMENT
  else if containsAny n ["WALLET", "PAY", "ALIPAY", "WECHAT", "OCTOPUS", "PAYME", "MOX",
      "ZA", "LIVI", "钱包", "支付", "微信", "支付宝", "八达通"] then .WALLET
  else if containsAny n ["PERSONAL", "CASH", "LOAN", "OTHER", "LEND", "BORROW",
      "私房", "借出", "现金", "其他", "森宇", "波仔"] then .PERSONAL
  else .BANK

/-- One row of the `ExcelGenerator` generic-list mapper (lines
475–485): same skip rule as the wizard, a currency heuristic based on
the row context with a first-match `replace`, and id `gen-${idx}`.
The column indices found by the surrounding keyword search are
parameters; `balanceIdx` may be `-1` (`none`) when the fallback probe
found no numeric column. -/
def parseGenericRow (nameIdx : ℕ) (balanceIdx currencyIdx : Option ℕ)
    (idx : ℕ) (row : List Json) : Option Account :=
  let nameCell := row.getD nameIdx .null
  if ! nameCell.truthy then none
  else
    let name := jsTrim (toJsString nameCell)
    let bal := cleanAmount (cellAt row balanceIdx)
    if name = "" || bal ≤ 0 then none
    else
      let curStr := match currencyIdx with
        | some ci => jsToUpper (toJsString (row.getD ci .null))
        | none => ""
      let balCell := cellAt row balanceIdx
      let balStr := if balCell.truthy then toJsString balCell else ""
      let context := jsToUpper (name ++ curStr ++ balStr)
      let cur :=
        if containsAny context ["CNY", "RMB", "CNH", "人民币", "¥"] &&
            ! containsAny (⟨replaceFirstAny ["CNY", "RMB", "人民币", "¥"] context.data⟩ : String)
              ["HKD", "HK", "港币"]
        then Currency.CNY else Currency.HKD
      some ⟨"gen-" ++ toString idx, name, guessTypeGen name, cur, bal⟩

/-- The generic-list account mapper of `ExcelGenerator.parseExcel`:
`rawData.slice(startRow + 1).map(...).filter(a => a !== null)`. -/
def parseGenericRows (nameIdx : ℕ) (balanceIdx currencyIdx : Option ℕ)
    (rows : List (List Json)) : List Account :=
  rows.enum.filterMap (fun p => parseGenericRow nameIdx balanceIdx currencyIdx p.1 p.2)

/-! ## Spec-side definitions

These definitions follow the words of spec sentences (for refutations
and for amended statements); they are compared against the
source-derived definitions above. -/

/-- The first-hop multiplier exactly as the spec sentence for `toBase`
states it: `rateTable[fromCurrency]`, treated as 1 whenever the rate
is missing or non-positive. -/
def claimMultiplier (rates : RateTable) (c : Currency) : ℚ :=
  match lookupRate rates c.code with
  | some (.num q) => if q ≤ 0 then 1 else q
  | _ => 1

/-- The second-hop divisor as the spec sentence states it:
`rateTable[baseCurrency]`, treated as 1 when missing or zero, and 1
when the base is the anchor (no second hop). -/
def specDivisor (rates : RateTable) (base : Currency) : ℚ :=
  if base = .HKD then 1
  else
    match lookupRate rates base.code with
    | some (.num q) => if q = 0 then 1 else q
    | _ => 1

/-- The conversion the claim describes, word for word. -/
def toBaseClaim (x : ℚ) (c : Currency) (rates : RateTable) (base : Currency) : ℚ :=
  x * claimMultiplier rates c / specDivisor rates base

/-- The amended first-hop multiplier: `rateTable[fromCurrency]`
treated as 1 when the rate is missing, `NaN` or zero, while a negative
rate is applied as-is. -/
def amendedMultiplier (rates : RateTable) (c : Currency) : ℚ :=
  match lookupRate rates c.code with
  | some (.num q) => if q = 0 then 1 else q
  | _ => 1

/-- A character the stripping rule of the spec keeps apart from the leading
minus: digits and the decimal point. -/
def keepClaimChar (c : Char) : Bool :=
  c.isDigit || c == '.'

/-- Stripping exactly as the claim sentence for `cleanAmount` states
it: every character that is not a digit, a decimal point, or a leading
minus sign is removed. -/
def stripClaim (s : String) : String :=
  match s.data with
  | '-' :: rest => ⟨'-' :: rest.filter keepClaimChar⟩
  | l => ⟨l.filter keepClaimChar⟩

/-- Parsing "the remainder" as a decimal numeral: an optional minus
sign, digits, an optional fractional part, nothing else; `none` when
the remainder is not a numeral. -/
def parseNumFull (l : List Char) : Option ℚ :=
  let signAndRest : ℚ × List Char :=
    match l with
    | '-' :: r => (-1, r)
    | _ => (1, l)
  let ip := signAndRest.2.takeWhile Char.isDigit
  let l2 := signAndRest.2.dropWhile Char.isDigit
  let fracAndRest : List Char × List Char :=
    match l2 with
    | '.' :: r => (r.takeWhile Char.isDigit, r.dropWhile Char.isDigit)
    | _ => ([], l2)
  if (ip.isEmpty && fracAndRest.1.isEmpty) || ! fracAndRest.2.isEmpty then none
  else some (signAndRest.1 *
    ((digitsVal ip : ℚ) + (digitsVal fracAndRest.1 : ℚ) / ((10 : ℚ) ^ fracAndRest.1.length)))

/-- The numeric coercion the claim describes, word for word: strip
per `stripClaim`, parse the remainder, 0 when unparseable. -/
def cleanAmountClaim : Json → ℚ
  | .null => 0
  | .num q => q
  | v => (parseNumFull (stripClaim (jsTrim (toJsString v))).data).getD 0

/-- The amended numeric coercion: strip every character that is not a
digit, a decimal point or a minus sign (a minus is kept wherever it
occurs), then parse the longest numeric prefix of the remainder
(`parseFloat`), with 0 for an unparseable remainder. -/
def cleanAmountAmended : Json → ℚ
  | .null => 0
  | .num q => q
  | v => (parseFloatQ ⟨(jsTrim (toJsString v)).data.filter isNumChar⟩).getD 0

/-- The id/name/type/currency skeleton of an account: everything
an import upsert must leave untouched. -/
def skel (a : Account) : String × String × AccountType × Currency :=
  (a.id, a.name, a.type, a.currency)

/-- Whether a stored `type` field is a member of `AccountType`. -/
def validTypeField (j : Option Json) : Bool :=
  match j with
  | some (.str s) => (AccountType.ofCode s).isSome
  | _ => false

/-- Whether a stored `currency` field is a member of `Currency`. -/
def validCurrencyField (j : Option Json) : Bool :=
  match j with
  | some (.num _) => false
  | some (.str s) => (Currency.ofCode s).isSome
  | _ => false

/-- Whether a stored `balance` field carries no numeric value: absent,
or a non-number whose stringification `parseFloat` rejects. -/
def balNonNumeric (j : Option Json) : Bool :=
  match j with
  | none => true
  | some (.num _) => false
  | some v => (parseFloatQ (toJsString v)).isNone

/-! ## Helper lemmas -/

theorem jsRateOr_none (f : ℚ) : jsRateOr none f = f := rfl

theorem jsRateOr_nan (f : ℚ) : jsRateOr (some .nan) f = f := rfl

theorem jsRateOr_num (q f : ℚ) : jsRateOr (some (.num q)) f = if q = 0 then f else q := rfl

theorem effectiveRate_eq_amended (rates : RateTable) (c : Currency) :
    effectiveRate rates c = amendedMultiplier rates c := by
  unfold effectiveRate rateToHKD amendedMultiplier
  rcases h : lookupRate rates c.code with _ | v
  · by_cases hc : c = .HKD <;> simp [jsRateOr_none, hc]
  · cases v with
    | nan => by_cases hc : c = .HKD <;> simp [jsRateOr_nan, hc]
    | num q =>
      by_cases hq : q = 0
      · by_cases hc : c = .HKD <;> simp [jsRateOr_num, hq, hc]
      · simp [jsRateOr_num, hq]

theorem toBase_eq_mul_df (x : ℚ) (c : Currency) (rates : RateTable) (base : Currency) :
    toBase x c rates base = x * effectiveRate rates c * displayFactor rates base := by
  unfold toBase displayFactor
  by_cases hb : base = .HKD
  · simp [hb]
  · simp [hb, div_eq_mul_inv, one_div]

/-! ## Claim C1 — two-hop conversion with fail-safe defaulting -/

/-- Claim C1, counterexample: the claim states that a non-positive
rate for the source currency makes the multiplier 1, so with
`rates = {HKD: 1, USD: -2}` converting 100 USD to HKD would give 100;
the code only treats falsy rates (missing, `NaN`, zero) as 1 and
multiplies by the negative rate as-is, giving -200. -/
theorem toBase_negative_rate_counterexample :
    toBase 100 .USD [(Currency.code .HKD, .num 1), (Currency.code .USD, .num (-2))] .HKD = -200
    ∧ toBaseClaim 100 .USD [(Currency.code .HKD, .num 1), (Currency.code .USD, .num (-2))] .HKD
        = 100 := by
  constructor
  · simp +decide [toBase, effectiveRate, rateToHKD, jsRateOr, lookupRate, Currency.code]
    norm_num
  · simp +decide [toBaseClaim, claimMultiplier, specDivisor, lookupRate, Currency.code]

/-- Claim C1, amended: the aggregation converts each balance in two
hops — multiply by `rateTable[fromCurrency]` to reach the anchor HKD,
treating the multiplier as 1 whenever that rate is missing, `NaN` or
zero (a negative rate is applied as-is); then, when the base currency
is not the anchor, divide by `rateTable[baseCurrency]`, treating the
divisor as 1 when it is missing, `NaN` or zero.  The conversion is a
total function: no input raises an error. -/
theorem toBase_defaulting_amended (x : ℚ) (c : Currency) (rates : RateTable) (base : Currency) :
    toBase x c rates base = x * amendedMultiplier rates c / specDivisor rates base := by
  unfold toBase specDivisor
  rw [← effectiveRate_eq_amended]
  by_cases hb : base = .HKD
  · simp [hb]
  · simp only [hb, if_neg hb, if_false]
    rcases h : lookupRate rates base.code with _ | v
    · simp [jsRateOr_none]
    · cases v with
      | nan => simp [jsRateOr_nan]
      | num q => by_cases hq : q = 0 <;> simp [jsRateOr_num, hq]

/-! ## Claim C9 — converting a currency to itself is the identity -/

/-- Claim C9: for every amount, every currency and every rate table
satisfying the anchor invariant (`rates[HKD] = 1`), the two-hop
conversion of a currency to itself is the identity, including all the
defaulting cases where the rate is missing, `NaN` or zero. -/
theorem toBase_self_identity (x : ℚ) (c : Currency) (rates : RateTable)
    (hv : lookupRate rates (Currency.code .HKD) = some (.num 1)) :
    toBase x c rates c = x := by
  by_cases hc : c = .HKD
  · subst hc
    unfold toBase effectiveRate rateToHKD
    simp [hv, jsRateOr_num]
  · unfold toBase effectiveRate rateToHKD
    simp only [if_neg hc]
    rcases h : lookupRate rates c.code with _ | v
    · simp [jsRateOr_none]
    · cases v with
      | nan => simp [jsRateOr_nan]
      | num q =>
        by_cases hq : q = 0
        · simp [jsRateOr_num, hq]
        · simp only [jsRateOr_num, if_neg hq, if_neg hc]
          exact mul_div_cancel_right₀ x hq

/-- Claim C9, witness: converting 5 CNY to CNY under the default rate
table (whose anchor entry is 1) returns 5. -/
theorem toBase_self_identity_witness : toBase 5 .CNY DEFAULT_RATES .CNY = 5 :=
  toBase_self_identity 5 .CNY DEFAULT_RATES rfl

/-! ## Claim C4 — imported transactions are prepended, no dedup -/

/-- Claim C4: merging imported transactions prepends all drafts before
the existing list, so the result is exactly `drafts ++ existing`, its
length is the sum of the two lengths, the existing transactions are
unchanged in place and order, and importing the identical set twice
doubles the transaction count. -/
theorem mergeImportedTransactions_prepend (drafts existing : List Transaction) :
    handleImportSmartTransactions drafts existing = drafts ++ existing
    ∧ (handleImportSmartTransactions drafts existing).length = drafts.length + existing.length
    ∧ (handleImportSmartTransactions drafts existing).drop drafts.length = existing
    ∧ (handleImportSmartTransactions drafts (handleImportSmartTransactions drafts [])).length
        = 2 * drafts.length := by
  have h : ∀ ex : List Transaction, handleImportSmartTransactions drafts ex = drafts ++ ex := by
    intro ex
    unfold handleImportSmartTransactions
    cases drafts <;> simp
  refine ⟨h existing, ?_, ?_, ?_⟩
  · rw [h existing, List.length_append]
  · rw [h existing, List.drop_left]
  · rw [h [], h (drafts ++ []), List.length_append, List.length_append]
    simp; ring

/-! ## Claim C5 — the numeric coercion `cleanAmount` -/

/-- Claim C5, counterexample: the claim strips every character that is
not a digit, a decimal point or a *leading* minus sign and parses the
remainder, which maps `"1-2"` to 12; the code keeps every minus sign
and `parseFloat` stops at the inner one, giving 1. -/
theorem cleanAmount_inner_minus_counterexample :
    cleanAmount (.str "1-2") = 1 ∧ cleanAmountClaim (.str "1-2") = 12 := by
  constructor <;>
    simp +decide [cleanAmount, cleanAmountClaim, jsTrim, toJsString, parseFloatQ, parseFloatCore,
      parseNumFull, stripClaim, digitsVal, isNumChar, keepClaimChar]

/-- Claim C5, amended: `cleanAmount` coerces a cell value by stripping
every character that is not a digit, a decimal point or a minus sign
(minus signs are kept wherever they occur) and parsing the longest
numeric prefix of the remainder, with an unparseable remainder
becoming 0 and no input raising an error; in particular
`"HK$1,234.50"` parses to 1234.50 and `"-"` parses to 0. -/
theorem cleanAmount_amended :
    (∀ v, cleanAmount v = cleanAmountAmended v)
    ∧ cleanAmount (.str "HK$1,234.50") = 1234.50
    ∧ cleanAmount (.str "-") = 0 := by
  have key : ∀ s : String,
      (if s = "-" || s = "" then (0 : ℚ) else (parseFloatQ ⟨s.data.filter isNumChar⟩).getD 0)
        = (parseFloatQ ⟨s.data.filter isNumChar⟩).getD 0 := by
    intro s
    by_cases h1 : s = "-"
    · subst h1; simp +decide [parseFloatQ, parseFloatCore, isNumChar]
    · by_cases h2 : s = ""
      · subst h2; simp +decide [parseFloatQ, parseFloatCore, isNumChar]
      · simp [h1, h2]
  refine ⟨?_,
    by simp +decide [cleanAmount, jsTrim, toJsString, parseFloatQ, parseFloatCore,
         digitsVal, isNumChar]
       norm_num,
    by simp +decide [cleanAmount, jsTrim, toJsString]⟩
  intro v
  cases v with
  | null => rfl
  | num q => rfl
  | bool b => exact key (jsTrim (toJsString (.bool b)))
  | str s => exact key (jsTrim (toJsString (.str s)))
  | arr l => exact key (jsTrim (toJsString (.arr l)))
  | obj fields => exact key (jsTrim (toJsString (.obj fields)))

/-! ## Claim C6 — the quick-add `handleAddAccount` -/

/-- Claim C6, counterexample: the claim states that an unparseable
balance makes `addAccount` fail with a `ValidationError`; the code
instead appends an account whose balance defaults to 0. -/
theorem handleAddAccount_unparseable_counterexample :
    handleAddAccount "99" "My Loan" "abc" .HKD .BANK [] =
      [⟨"99", "My Loan", .BANK, .HKD, 0⟩] := by
  simp +decide [handleAddAccount, parseFloatQ, parseFloatCore]

/-- Claim C6, amended: when the name or the balance input is empty the
call silently returns the account list unchanged (no error of any kind
is raised), and otherwise a new account carrying the minted id and the
balance `parseFloat(balance) || 0` — 0 when the text is unparseable —
is appended at the end, leaving every existing account unchanged. -/
theorem handleAddAccount_amended (newId name balStr : String) (cur : Currency)
    (typ : AccountType) (accounts : List Account) :
    (name = "" ∨ balStr = "" → handleAddAccount newId name balStr cur typ accounts = accounts)
    ∧ (name ≠ "" → balStr ≠ "" →
        handleAddAccount newId name balStr cur typ accounts =
          accounts ++ [⟨newId, name, typ, cur, (parseFloatQ balStr).getD 0⟩]) := by
  constructor
  · intro h
    unfold handleAddAccount
    rcases h with h | h <;> simp [h]
  · intro h1 h2
    unfold handleAddAccount
    simp [h1, h2]

/-- Claim C6, witness for the amended theorem: adding a filled-in
draft appends exactly one account. -/
theorem handleAddAccount_amended_witness :
    handleAddAccount "1" "Cash" "250.5" .HKD .BANK [] =
      [] ++ [⟨"1", "Cash", .BANK, .HKD, (parseFloatQ "250.5").getD 0⟩] :=
  (handleAddAccount_amended "1" "Cash" "250.5" .HKD .BANK []).2
    (by decide) (by decide)

/-! ## Claim C7 — the anchor invariant of the rate table -/

theorem lookupRate_setRate_ne (t : RateTable) (k key : String) (v : RateVal)
    (hk : k ≠ key) : lookupRate (setRate t k v) key = lookupRate t key := by
  induction t with
  | nil => simp [setRate, lookupRate, hk]
  | cons p rest ih =>
    rcases p with ⟨k0, v0⟩
    unfold setRate
    by_cases h0 : k0 = k
    · subst h0
      have hk0 : k0 ≠ key := hk
      simp [lookupRate, hk0]
    · simp only [if_neg h0]
      unfold lookupRate
      by_cases h1 : k0 = key
      · rw [if_pos h1, if_pos h1]
      · rw [if_neg h1, if_neg h1, ih]

theorem mergeRates_preserves_missing_key (key : String) :
    ∀ (resp : List (String × RateVal)) (prev : RateTable),
      resp.all (fun p => p.1 != key) = true →
      lookupRate (mergeRates prev resp) key = lookupRate prev key := by
  intro resp
  induction resp with
  | nil => intro prev _; rfl
  | cons p rest ih =>
    intro prev hall
    simp only [List.all_cons, Bool.and_eq_true, bne_iff_ne] at hall
    have step : mergeRates prev (p :: rest) = mergeRates (setRate prev p.1 p.2) rest := rfl
    rw [step, ih (setRate prev p.1 p.2) (by simpa using hall.2),
      lookupRate_setRate_ne prev p.1 key p.2 hall.1]

/-- Claim C7, counterexample: an exchange-rate refresh merges the
oracle response entry-by-entry without validating it, so a response
carrying an `HKD` entry overwrites the anchor rate; after merging
`{HKD: 2}` into the default table the anchor no longer maps to 1. -/
theorem anchorRate_refresh_counterexample :
    lookupRate (mergeRates DEFAULT_RATES [(Currency.code .HKD, .num 2)]) (Currency.code .HKD)
      = some (.num 2)
    ∧ lookupRate (loadExchangeRates (some [(Currency.code .CNY, .num 2)])) (Currency.code .HKD)
      = none := by
  constructor
  · rfl
  · rfl

/-- Claim C7, amended: the default table maps the anchor HKD to 1; a
refresh merges the (possibly incomplete) response into the table entry by
entry and preserves the anchor invariant whenever the response carries
no `HKD` entry (a response with an `HKD` entry overwrites it); and the
restore path uses the stored table unvalidated, falling back to the
default table only when no table is stored — so a restored table
satisfies the invariant only if the stored one did. -/
theorem anchorRate_invariant_amended :
    lookupRate DEFAULT_RATES (Currency.code .HKD) = some (.num 1)
    ∧ (∀ (prev : RateTable) (resp : List (String × RateVal)),
        lookupRate prev (Currency.code .HKD) = some (.num 1) →
        resp.all (fun p => p.1 != Currency.code .HKD) = true →
        lookupRate (mergeRates prev resp) (Currency.code .HKD) = some (.num 1))
    ∧ loadExchangeRates none = DEFAULT_RATES
    ∧ (∀ t : RateTable, loadExchangeRates (some t) = t) := by
  refine ⟨rfl, ?_, rfl, fun t => rfl⟩
  intro prev resp hprev hall
  rw [mergeRates_preserves_missing_key (Currency.code .HKD) resp prev hall, hprev]

/-- Claim C7, witness for the amended theorem: merging a response that
touches only CNY into the default table leaves the anchor at 1. -/
theorem anchorRate_invariant_amended_witness :
    lookupRate (mergeRates DEFAULT_RATES [(Currency.code .CNY, .num 2)]) (Currency.code .HKD)
      = some (.num 1) :=
  anchorRate_invariant_amended.2.1 DEFAULT_RATES [(Currency.code .CNY, .num 2)] rfl (by decide)

/-! ## Claim C2 — `computeTotals` bucketing -/

theorem foldl_bucket_field (rates : RateTable) (g : Buckets → ℚ) (contrib : Account → ℚ)
    (hstep : ∀ b a, g (bucketStep rates b a) = g b + contrib a) :
    ∀ (l : List Account) (b : Buckets),
      g (l.foldl (bucketStep rates) b) = g b + (l.map contrib).sum := by
  intro l
  induction l with
  | nil => intro b; simp
  | cons a t ih =>
    intro b
    simp only [List.foldl_cons, List.map_cons, List.sum_cons]
    rw [ih, hstep]
    ring

theorem bucketStep_invest (rates : RateTable) (b : Buckets) (a : Account) :
    (bucketStep rates b a).invest = b.invest +
      (if a.type = .INVESTMENT ∧ 0 < a.balance
        then a.balance * effectiveRate rates a.currency else 0) := by
  by_cases h1 : a.type = .INVESTMENT <;> by_cases h2 : 0 < a.balance <;>
      by_cases h3 : a.balance < 0 <;> by_cases h4 : a.currency = .HKD <;>
    simp [bucketStep, h1, h2, h3, h4]

theorem bucketStep_liability (rates : RateTable) (b : Buckets) (a : Account) :
    (bucketStep rates b a).liability = b.liability +
      (if a.type ≠ .INVESTMENT ∧ a.balance < 0
        then |a.balance * effectiveRate rates a.currency| else 0) := by
  by_cases h1 : a.type = .INVESTMENT <;> by_cases h2 : 0 < a.balance <;>
      by_cases h3 : a.balance < 0 <;> by_cases h4 : a.currency = .HKD <;>
    simp [bucketStep, h1, h2, h3, h4]

theorem bucketStep_hkdCash (rates : RateTable) (b : Buckets) (a : Account) :
    (bucketStep rates b a).hkdCash = b.hkdCash +
      (if a.type ≠ .INVESTMENT ∧ ¬ a.balance < 0 ∧ a.currency = .HKD
        then a.balance else 0) := by
  by_cases h1 : a.type = .INVESTMENT <;> by_cases h2 : 0 < a.balance <;>
      by_cases h3 : a.balance < 0 <;> by_cases h4 : a.currency = .HKD <;>
    simp [bucketStep, h1, h2, h3, h4]

theorem bucketStep_foreignCash (rates : RateTable) (b : Buckets) (a : Account) :
    (bucketStep rates b a).foreignCash = b.foreignCash +
      (if a.type ≠ .INVESTMENT ∧ ¬ a.balance < 0 ∧ a.currency ≠ .HKD
        then a.balance * effectiveRate rates a.currency else 0) := by
  by_cases h1 : a.type = .INVESTMENT <;> by_cases h2 : 0 < a.balance <;>
      by_cases h3 : a.balance < 0 <;> by_cases h4 : a.currency = .HKD <;>
    simp [bucketStep, h1, h2, h3, h4]

theorem sum_map_mul_const {α : Type} (l : List α) (f : α → ℚ) (r : ℚ) :
    (l.map f).sum * r = (l.map (fun x => f x * r)).sum := by
  induction l with
  | nil => simp
  | cons a t ih => simp [add_mul, ih]

/-- Claim C2, counterexample: the claim classifies any account with a
negative balance that is not a positive investment as a liability —
in particular `{HKD, Investment, -500}` would contribute 500 — but the
code nests the sign test inside the `type === Investment` branch, so a
negative-balance investment account contributes to no bucket at all:
its liabilities bucket stays 0 (and its net worth stays 0). -/
theorem computeTotals_negative_investment_counterexample :
    (computeTotals [⟨"1", "Margin", .INVESTMENT, .HKD, -500⟩] DEFAULT_RATES .HKD).liabilities = 0
    ∧ (computeTotals [⟨"1", "Margin", .INVESTMENT, .HKD, -500⟩] DEFAULT_RATES .HKD).netWorth = 0
    ∧ toBase |(-500 : ℚ)| .HKD DEFAULT_RATES .HKD = 500 := by
  refine ⟨?_, ?_, ?_⟩ <;>
    simp +decide [computeTotals, rawBuckets, bucketStep, displayFactor, toBase,
      effectiveRate, rateToHKD, jsRateOr, lookupRate, DEFAULT_RATES, Currency.code]

/-- Claim C2, amended: `computeTotals` buckets each account as
follows — an Investment-type account contributes its converted balance
to the investment bucket when its balance is > 0 and contributes to no
bucket otherwise (a negative investment balance is NOT booked as a
liability and simply drops out of netWorth); a non-Investment account
with negative balance contributes the absolute value of its
anchor-converted balance, scaled by the display factor, to the
liability bucket; every other account goes to the HKD cash bucket
(raw balance, scaled) or the foreign cash bucket (converted balance)
according to whether its currency is the anchor; and
`netWorth = hkdCash + foreignCash + investments - liabilities`. -/
theorem computeTotals_bucketing_amended (accounts : List Account) (rates : RateTable)
    (base : Currency) :
    (computeTotals accounts rates base).investments =
      (accounts.map (fun a =>
        if a.type = .INVESTMENT ∧ 0 < a.balance
          then toBase a.balance a.currency rates base else 0)).sum
    ∧ (computeTotals accounts rates base).liabilities =
      (accounts.map (fun a =>
        if a.type ≠ .INVESTMENT ∧ a.balance < 0
          then |a.balance * effectiveRate rates a.currency| * displayFactor rates base
          else 0)).sum
    ∧ (computeTotals accounts rates base).hkdCash =
      (accounts.map (fun a =>
        if a.type ≠ .INVESTMENT ∧ ¬ a.balance < 0 ∧ a.currency = .HKD
          then a.balance * displayFactor rates base else 0)).sum
    ∧ (computeTotals accounts rates base).foreignCash =
      (accounts.map (fun a =>
        if a.type ≠ .INVESTMENT ∧ ¬ a.balance < 0 ∧ a.currency ≠ .HKD
          then toBase a.balance a.currency rates base else 0)).sum
    ∧ (computeTotals accounts rates base).netWorth =
      (computeTotals accounts rates base).hkdCash
      + (computeTotals accounts rates base).foreignCash
      + (computeTotals accounts rates base).investments
      - (computeTotals accounts rates base).liabilities := by
  have hinv := foldl_bucket_field rates Buckets.invest _
    (bucketStep_invest rates) accounts ⟨0, 0, 0, 0, 0⟩
  have hliab := foldl_bucket_field rates Buckets.liability _
    (bucketStep_liability rates) accounts ⟨0, 0, 0, 0, 0⟩
  have hhkd := foldl_bucket_field rates Buckets.hkdCash _
    (bucketStep_hkdCash rates) accounts ⟨0, 0, 0, 0, 0⟩
  have hfor := foldl_bucket_field rates Buckets.foreignCash _
    (bucketStep_foreignCash rates) accounts ⟨0, 0, 0, 0, 0⟩
  refine ⟨?_, ?_, ?_, ?_, ?_⟩
  · show (rawBuckets accounts rates).invest * displayFactor rates base = _
    rw [rawBuckets, hinv]
    simp only [zero_add]
    rw [sum_map_mul_const]
    have hf : (fun x : Account =>
        (if x.type = .INVESTMENT ∧ 0 < x.balance
          then x.balance * effectiveRate rates x.currency else 0) * displayFactor rates base)
        = (fun a : Account =>
          if a.type = .INVESTMENT ∧ 0 < a.balance
            then toBase a.balance a.currency rates base else 0) := by
      funext a
      rw [ite_mul, zero_mul, toBase_eq_mul_df]
    rw [hf]
  · show (rawBuckets accounts rates).liability * displayFactor rates base = _
    rw [rawBuckets, hliab]
    simp only [zero_add]
    rw [sum_map_mul_const]
    have hf : (fun x : Account =>
        (if x.type ≠ .INVESTMENT ∧ x.balance < 0
          then |x.balance * effectiveRate rates x.currency| else 0) * displayFactor rates base)
        = (fun a : Account =>
          if a.type ≠ .INVESTMENT ∧ a.balance < 0
            then |a.balance * effectiveRate rates a.currency| * displayFactor rates base
            else 0) := by
      funext a
      rw [ite_mul, zero_mul]
    rw [hf]
  · show (rawBuckets accounts rates).hkdCash * displayFactor rates base = _
    rw [rawBuckets, hhkd]
    simp only [zero_add]
    rw [sum_map_mul_const]
    have hf : (fun x : Account =>
        (if x.type ≠ .INVESTMENT ∧ ¬ x.balance < 0 ∧ x.currency = .HKD
          then x.balance else 0) * displayFactor rates base)
        = (fun a : Account =>
          if a.type ≠ .INVESTMENT ∧ ¬ a.balance < 0 ∧ a.currency = .HKD
            then a.balance * displayFactor rates base else 0) := by
      funext a
      rw [ite_mul, zero_mul]
    rw [hf]
  · show (rawBuckets accounts rates).foreignCash * displayFactor rates base = _
    rw [rawBuckets, hfor]
    simp only [zero_add]
    rw [sum_map_mul_const]
    have hf : (fun x : Account =>
        (if x.type ≠ .INVESTMENT ∧ ¬ x.balance < 0 ∧ x.currency ≠ .HKD
          then x.balance * effectiveRate rates x.currency else 0) * displayFactor rates base)
        = (fun a : Account =>
          if a.type ≠ .INVESTMENT ∧ ¬ a.balance < 0 ∧ a.currency ≠ .HKD
            then toBase a.balance a.currency rates base else 0) := by
      funext a
      rw [ite_mul, zero_mul, toBase_eq_mul_df]
    rw [hf]
  · simp only [computeTotals]
    ring

/-! ## Claim C3 — upsert-by-name merge of imported accounts -/

theorem upsert_skel (low : String) (bal : ℚ) :
    ∀ (l l2 : List Account), upsertByName low bal l = some l2 →
      l2.map skel = l.map skel ∧ l2.length = l.length := by
  intro l
  induction l with
  | nil => intro l2 h; exact absurd h (by simp [upsertByName])
  | cons a rest ih =>
    intro l2 h
    unfold upsertByName at h
    by_cases hm : jsToLower a.name = low
    · rw [if_pos hm] at h
      cases h
      constructor
      · rfl
      · rfl
    · rw [if_neg hm] at h
      cases hr : upsertByName low bal rest with
      | none => rw [hr] at h; cases h
      | some rest2 =>
        rw [hr] at h
        cases h
        obtain ⟨h1, h2⟩ := ih rest2 hr
        constructor
        · simp [skel, h1]
        · simp [h2]

theorem upsert_found (low : String) (bal : ℚ) (a : Account) (hmatch : jsToLower a.name = low) :
    ∀ (pre : List Account), (∀ x ∈ pre, jsToLower x.name ≠ low) →
      ∀ post, upsertByName low bal (pre ++ a :: post) =
        some (pre ++ { a with balance := bal } :: post) := by
  intro pre
  induction pre with
  | nil =>
    intro _ post
    simp only [List.nil_append]
    unfold upsertByName
    rw [if_pos hmatch]
  | cons x pre ih =>
    intro hpre post
    have hx : jsToLower x.name ≠ low := hpre x (by simp)
    have hrest : ∀ y ∈ pre, jsToLower y.name ≠ low := fun y hy => hpre y (by simp [hy])
    show upsertByName low bal (x :: (pre ++ a :: post)) = _
    unfold upsertByName
    rw [if_neg hx, ih hrest post]
    rfl

theorem upsert_not_found (low : String) (bal : ℚ) :
    ∀ (l : List Account), (∀ x ∈ l, jsToLower x.name ≠ low) →
      upsertByName low bal l = none := by
  intro l
  induction l with
  | nil => intro _; rfl
  | cons x rest ih =>
    intro h
    unfold upsertByName
    rw [if_neg (h x (by simp)), ih (fun y hy => h y (by simp [hy]))]

theorem go_skel_take (fresh : ℕ → String) :
    ∀ (ds : List AccountDraft) (k : ℕ) (accs : List Account),
      ((importAccountsGo fresh k accs ds).take accs.length).map skel = accs.map skel := by
  intro ds
  induction ds with
  | nil => intro k accs; simp [importAccountsGo]
  | cons d rest ih =>
    intro k accs
    cases hn : d.name with
    | none =>
      simp only [importAccountsGo, hn]
      exact ih k accs
    | some n =>
      by_cases hne : n = ""
      · simp only [importAccountsGo, hn, if_pos hne]
        exact ih k accs
      · cases hu : upsertByName (jsToLower n) (importBalance d) accs with
        | some accs2 =>
          simp only [importAccountsGo, hn, if_neg hne, hu]
          obtain ⟨hskel, hlen⟩ := upsert_skel (jsToLower n) (importBalance d) accs accs2 hu
          calc ((importAccountsGo fresh k accs2 rest).take accs.length).map skel
              = accs2.map skel := by rw [← hlen]; exact ih k accs2
            _ = accs.map skel := hskel
        | none =>
          simp only [importAccountsGo, hn, if_neg hne, hu]
          have hIH := ih (k + 1) (accs ++ [draftAccount (fresh k) d n])
          rw [List.length_append, List.length_singleton] at hIH
          have h1 : (importAccountsGo fresh (k + 1) (accs ++ [draftAccount (fresh k) d n])
              rest).take accs.length
              = ((importAccountsGo fresh (k + 1) (accs ++ [draftAccount (fresh k) d n])
                rest).take (accs.length + 1)).take accs.length := by
            rw [List.take_take, min_eq_left (by omega)]
          rw [h1, List.map_take, hIH, List.map_append]
          have h2 : accs.length = (accs.map skel).length := (List.length_map accs skel).symm
          rw [h2, List.take_left]

/-- Claim C3, counterexample: the claim states that every draft whose
name matches no existing account is appended as a new account, but the
merge skips any draft with a falsy (absent or empty) name before
matching: importing one draft named `""` over an empty ledger yields
an empty ledger, not one new account. -/
theorem mergeImportedAccounts_empty_name_counterexample :
    handleImportSmartAccounts (fun k => "ai-" ++ toString k)
      [⟨some "", some 5, none, none⟩] [] = [] := by
  rfl

/-- Claim C3, amended: merging imported accounts treats each draft
carrying a non-empty name as an upsert keyed by case-insensitive name
equality — a matching existing account has only its balance field
overwritten (id, name, type and currency unchanged, order preserved),
an unmatched draft is appended with a freshly minted id — while drafts
with a missing or empty name are skipped.  In particular importing
`{name: "HSBC", balance: 200}` over an existing `"hsbc"` with balance
100 yields the single account `"hsbc"` with balance 200. -/
theorem mergeImportedAccounts_upsert_amended :
    (∀ (fresh : ℕ → String) (drafts : List AccountDraft) (existing : List Account),
      (∀ d ∈ drafts, d.name = none ∨ d.name = some "") →
      handleImportSmartAccounts fresh drafts existing = existing)
    ∧ (∀ (fresh : ℕ → String) (d : AccountDraft) (n : String) (existing : List Account),
        d.name = some n → n ≠ "" →
        (∀ x ∈ existing, jsToLower x.name ≠ jsToLower n) →
        handleImportSmartAccounts fresh [d] existing =
          existing ++ [draftAccount (fresh 0) d n])
    ∧ (∀ (fresh : ℕ → String) (d : AccountDraft) (n : String)
        (pre : List Account) (a : Account) (post : List Account),
        d.name = some n → n ≠ "" →
        (∀ x ∈ pre, jsToLower x.name ≠ jsToLower n) →
        jsToLower a.name = jsToLower n →
        handleImportSmartAccounts fresh [d] (pre ++ a :: post) =
          pre ++ { a with balance := importBalance d } :: post)
    ∧ (∀ (fresh : ℕ → String) (drafts : List AccountDraft) (existing : List Account),
        ((handleImportSmartAccounts fresh drafts existing).take existing.length).map skel
          = existing.map skel)
    ∧ handleImportSmartAccounts (fun k => "ai-" ++ toString k)
        [⟨some "HSBC", some 200, none, none⟩] [⟨"1", "hsbc", .BANK, .HKD, 100⟩]
        = [⟨"1", "hsbc", .BANK, .HKD, 200⟩] := by
  refine ⟨?_, ?_, ?_, ?_, by decide⟩
  · intro fresh drafts
    induction drafts with
    | nil => intro existing _; rfl
    | cons d rest ih =>
      intro existing hall
      rcases hall d (by simp) with h | h
      · simp only [handleImportSmartAccounts, importAccountsGo, h]
        exact ih existing (fun x hx => hall x (by simp [hx]))
      · simp only [handleImportSmartAccounts, importAccountsGo, h, if_pos rfl]
        exact ih existing (fun x hx => hall x (by simp [hx]))
  · intro fresh d n existing hd hn hnone
    simp only [handleImportSmartAccounts, importAccountsGo, hd, if_neg hn,
      upsert_not_found (jsToLower n) (importBalance d) existing hnone]
  · intro fresh d n pre a post hd hn hpre ha
    simp only [handleImportSmartAccounts, importAccountsGo, hd, if_neg hn,
      upsert_found (jsToLower n) (importBalance d) a ha pre hpre post]
  · intro fresh drafts existing
    exact go_skel_take fresh drafts 0 existing

/-- Claim C3, witness for the amended theorem: a draft with a fresh
name is appended with the minted id. -/
theorem mergeImportedAccounts_upsert_amended_witness :
    handleImportSmartAccounts (fun k => "ai-" ++ toString k)
      [⟨some "BOC", some 50, none, none⟩] [] =
      [] ++ [draftAccount ((fun k => "ai-" ++ toString k) 0) ⟨some "BOC", some 50, none, none⟩
        "BOC"] :=
  mergeImportedAccounts_upsert_amended.2.1 (fun k => "ai-" ++ toString k)
    ⟨some "BOC", some 50, none, none⟩ "BOC" [] rfl (by decide) (by simp)

/-! ## Claim C8 — defensive restore of the persisted account list -/

theorem coerceElems_of_no_null (nowId : String) :
    ∀ (l : List Json), l.all (fun j => ! j.isNull) = true →
      coerceElems nowId l = some (l.map (coerceAccountJson nowId)) := by
  intro l
  induction l with
  | nil => intro _; rfl
  | cons a rest ih =>
    intro h
    simp only [List.all_cons, Bool.and_eq_true, Bool.not_eq_eq_eq_not, Bool.not_true] at h
    unfold coerceElems
    rw [h.1, ih (by simpa using h.2)]
    rfl

theorem coerceElems_of_null (nowId : String) :
    ∀ (l : List Json), l.all (fun j => ! j.isNull) = false →
      coerceElems nowId l = none := by
  intro l
  induction l with
  | nil => intro h; cases h
  | cons a rest ih =>
    intro h
    unfold coerceElems
    by_cases ha : a.isNull
    · rw [if_pos ha]
    · rw [if_neg ha]
      have hrest : rest.all (fun j => ! j.isNull) = false := by
        rcases Bool.eq_false_iff.mp h with h2
        by_cases hr : rest.all (fun j => ! j.isNull)
        · exact absurd (by simp [List.all_cons, ha, hr]) h2
        · exact Bool.eq_false_iff.mpr hr
      rw [ih hrest]

/-- Claim C8, counterexample: the claim states that when the stored
`accounts` field is an array, each element is coerced field-by-field;
but an array containing a `null` element makes the coercing `map`
throw (`null.id`), and the catch falls back to the six-account default
list instead of producing one coerced account. -/
theorem loadAccounts_null_element_counterexample :
    loadAccounts "169" (some (.obj [("accounts", .arr [.null])])) = INITIAL_ACCOUNTS
    ∧ INITIAL_ACCOUNTS.length = 6 := by
  constructor
  · rfl
  · rfl

/-- Claim C8, amended: loading a persisted snapshot never throws — the
initializer is a total function.  When nothing is stored, or the
stored document is `null`, or its `accounts` field is not an array,
the default list is restored; when the field is an array all of whose
elements are non-null, each element is coerced (a type outside the
`AccountType` enum becomes `Bank`, a currency outside the `Currency`
enum becomes `HKD`, a balance that is neither a number nor a parseable
numeric string becomes 0); and an array containing a `null` element
makes the whole load fall back to the default list (the thrown
`TypeError` is caught), rather than coercing that element. -/
theorem loadAccounts_defensive_amended :
    (∀ nowId, loadAccounts nowId none = INITIAL_ACCOUNTS)
    ∧ (∀ nowId (parsed : Json), parsed.isNull = true →
        loadAccounts nowId (some parsed) = INITIAL_ACCOUNTS)
    ∧ (∀ nowId (parsed : Json), (∀ l, parsed.getField "accounts" ≠ some (.arr l)) →
        loadAccounts nowId (some parsed) = INITIAL_ACCOUNTS)
    ∧ (∀ nowId (parsed : Json) (l : List Json), parsed.isNull = false →
        parsed.getField "accounts" = some (.arr l) →
        l.all (fun j => ! j.isNull) = true →
        loadAccounts nowId (some parsed) = l.map (coerceAccountJson nowId))
    ∧ (∀ nowId (parsed : Json) (l : List Json), parsed.isNull = false →
        parsed.getField "accounts" = some (.arr l) →
        l.all (fun j => ! j.isNull) = false →
        loadAccounts nowId (some parsed) = INITIAL_ACCOUNTS)
    ∧ (∀ nowId (a : Json), validTypeField (a.getField "type") = false →
        (coerceAccountJson nowId a).type = .BANK)
    ∧ (∀ nowId (a : Json), validCurrencyField (a.getField "currency") = false →
        (coerceAccountJson nowId a).currency = .HKD)
    ∧ (∀ nowId (a : Json), balNonNumeric (a.getField "balance") = true →
        (coerceAccountJson nowId a).balance = 0) := by
  refine ⟨fun _ => rfl, ?_, ?_, ?_, ?_, ?_, ?_, ?_⟩
  · intro nowId parsed h
    simp only [loadAccounts, h]
    rfl
  · intro nowId parsed h
    by_cases hnull : parsed.isNull
    · simp only [loadAccounts, hnull]
      rfl
    · have hn : parsed.isNull = false := Bool.eq_false_iff.mpr hnull
      cases hf : parsed.getField "accounts" with
      | none => simp only [loadAccounts, hn, Bool.false_eq_true, if_false, hf]
      | some j =>
        cases j with
        | arr l => exact absurd hf (h l)
        | null => simp only [loadAccounts, hn, Bool.false_eq_true, if_false, hf]
        | bool b => simp only [loadAccounts, hn, Bool.false_eq_true, if_false, hf]
        | num q => simp only [loadAccounts, hn, Bool.false_eq_true, if_false, hf]
        | str s => simp only [loadAccounts, hn, Bool.false_eq_true, if_false, hf]
        | obj fields => simp only [loadAccounts, hn, Bool.false_eq_true, if_false, hf]
  · intro nowId parsed l hnull hf hall
    simp only [loadAccounts, hnull, Bool.false_eq_true, if_false, hf,
      coerceElems_of_no_null nowId l hall]
    rfl
  · intro nowId parsed l hnull hf hall
    simp only [loadAccounts, hnull, Bool.false_eq_true, if_false, hf,
      coerceElems_of_null nowId l hall]
    rfl
  · intro nowId a h
    show decodeTypeField (a.getField "type") = .BANK
    cases hf : a.getField "type" with
    | none => rfl
    | some j =>
      cases j with
      | str s =>
        rw [hf] at h
        simp only [validTypeField] at h
        simp only [decodeTypeField]
        cases hc : AccountType.ofCode s with
        | none => simp
        | some t => rw [hc] at h; cases h
      | null => rfl
      | bool b => rfl
      | num q => rfl
      | arr l => rfl
      | obj fields => rfl
  · intro nowId a h
    show decodeCurrencyField (a.getField "currency") = .HKD
    cases hf : a.getField "currency" with
    | none => rfl
    | some j =>
      cases j with
      | str s =>
        rw [hf] at h
        simp only [validCurrencyField] at h
        simp only [decodeCurrencyField]
        cases hc : Currency.ofCode s with
        | none => simp
        | some c => rw [hc] at h; cases h
      | null => rfl
      | bool b => rfl
      | num q => rfl
      | arr l => rfl
      | obj fields => rfl
  · intro nowId a h
    show jsBalance (a.getField "balance") = 0
    cases hf : a.getField "balance" with
    | none => rfl
    | some j =>
      rw [hf] at h
      simp only [balNonNumeric] at h
      cases j with
      | num q => cases h
      | null => simp [jsBalance, Option.isNone_iff_eq_none.mp h]
      | bool b => simp [jsBalance, Option.isNone_iff_eq_none.mp h]
      | str s => simp [jsBalance, Option.isNone_iff_eq_none.mp h]
      | arr l => simp [jsBalance, Option.isNone_iff_eq_none.mp h]
      | obj fields => simp [jsBalance, Option.isNone_iff_eq_none.mp h]

/-- Claim C8, witness for the amended theorem: a stored array of one
well-formed element is coerced element-wise. -/
theorem loadAccounts_defensive_amended_witness :
    loadAccounts "169" (some (.obj [("accounts",
        .arr [.obj [("name", .str "X"), ("type", .str "Nope"), ("balance", .str "12abc")]])]))
      = [.obj [("name", .str "X"), ("type", .str "Nope"),
          ("balance", .str "12abc")]].map (coerceAccountJson "169") :=
  loadAccounts_defensive_amended.2.2.2.1 "169"
    (.obj [("accounts",
      .arr [.obj [("name", .str "X"), ("type", .str "Nope"), ("balance", .str "12abc")]])])
    [.obj [("name", .str "X"), ("type", .str "Nope"), ("balance", .str "12abc")]]
    rfl rfl rfl

/-! ## Claim C10 — heuristic Excel import emits only positive balances -/

theorem parseWizardRow_pos (now : String) (nameIdx balanceIdx : ℕ) (currencyIdx : Option ℕ)
    (idx : ℕ) (row : List Json) (a : Account)
    (h : parseWizardRow now nameIdx balanceIdx currencyIdx idx row = some a) :
    0 < a.balance ∧ a.name ≠ "" := by
  simp only [parseWizardRow] at h
  split at h
  · exact absurd h (by simp)
  · split at h
    · exact absurd h (by simp)
    · next hcond =>
      have ha := Option.some.inj h
      subst ha
      simp only [Bool.or_eq_true, decide_eq_true_eq, not_or] at hcond
      exact ⟨not_le.mp hcond.2, hcond.1⟩

theorem parseGenericRow_pos (nameIdx : ℕ) (balanceIdx currencyIdx : Option ℕ)
    (idx : ℕ) (row : List Json) (a : Account)
    (h : parseGenericRow nameIdx balanceIdx currencyIdx idx row = some a) :
    0 < a.balance ∧ a.name ≠ "" := by
  simp only [parseGenericRow] at h
  split at h
  · exact absurd h (by simp)
  · split at h
    · exact absurd h (by simp)
    · next hcond =>
      have ha := Option.some.inj h
      subst ha
      simp only [Bool.or_eq_true, decide_eq_true_eq, not_or] at hcond
      exact ⟨not_le.mp hcond.2, hcond.1⟩

/-- Claim C10: the heuristic spreadsheet import paths emit only
accounts with a non-empty name and strictly positive cleaned balance —
every row with a falsy name cell, an empty trimmed name or a cleaned
balance ≤ 0 is dropped, so a spreadsheet import can never create a
zero-balance or negative-balance (liability) account.  This holds for
the `ImportWizard` bulk-asset path and for the `ExcelGenerator`
generic-list mapper under every choice of header columns. -/
theorem excelImport_positive_balances :
    (∀ (now : String) (rawData : List (List Json)) (res : List Account),
      handleExcelImport now rawData = .ok res →
      ∀ a ∈ res, 0 < a.balance ∧ a.name ≠ "")
    ∧ (∀ (nameIdx : ℕ) (balanceIdx currencyIdx : Option ℕ) (rows : List (List Json))
        (a : Account), a ∈ parseGenericRows nameIdx balanceIdx currencyIdx rows →
        0 < a.balance ∧ a.name ≠ "") := by
  constructor
  · intro now rawData res h a ha
    simp only [handleExcelImport] at h
    split at h
    · exact absurd h (by simp)
    · split at h
      · exact absurd h (by simp)
      · have hres := Except.ok.inj h
        subst hres
        obtain ⟨p, _, hp⟩ := List.mem_filterMap.mp ha
        exact parseWizardRow_pos now _ _ _ p.1 p.2 a hp
  · intro nameIdx balanceIdx currencyIdx rows a ha
    obtain ⟨p, _, hp⟩ := List.mem_filterMap.mp ha
    exact parseGenericRow_pos nameIdx balanceIdx currencyIdx p.1 p.2 a hp

/-- Claim C10, witness: a two-row sheet with one positive-balance
row imports exactly that account, and the theorem certifies its
balance positive and its name non-empty on both paths. -/
theorem excelImport_positive_balances_witness :
    (0 < (⟨"gen-0-D", "HSBC", .BANK, .HKD, 100⟩ : Account).balance
      ∧ (⟨"gen-0-D", "HSBC", .BANK, .HKD, 100⟩ : Account).name ≠ "")
    ∧ (0 < (⟨"gen-0", "HSBC", .BANK, .HKD, 100⟩ : Account).balance
      ∧ (⟨"gen-0", "HSBC", .BANK, .HKD, 100⟩ : Account).name ≠ "") :=
  ⟨excelImport_positive_balances.1 "D"
      [[.str "Name", .str "Balance"], [.str "HSBC", .num 100]]
      [⟨"gen-0-D", "HSBC", .BANK, .HKD, 100⟩] (by rfl)
      ⟨"gen-0-D", "HSBC", .BANK, .HKD, 100⟩ (by simp),
    excelImport_positive_balances.2 0 (some 1) none [[.str "HSBC", .num 100]]
      ⟨"gen-0", "HSBC", .BANK, .HKD, 100⟩
      (by rw [(by rfl : parseGenericRows 0 (some 1) none [[.str "HSBC", .num 100]]
          = [⟨"gen-0", "HSBC", .BANK, .HKD, 100⟩])]; simp)⟩

end WealthDash
